import Mathlib

/-
Verification of the graduation-audit engine (audit_l1.py / audit_l2.py /
audit_l3.py): transcript accumulation (passed-course set, latest-attempt
history), CGPA computation, requirements resolution from a markdown
document, and the eligibility cross-check.

Numeric values (credits, grade points, CGPA) are modelled as rationals;
course codes, grades and program names as strings.  A transcript row
carries the already-read CSV fields: the raw course code and grade
strings (the code trims them itself) and the credit value after the
`float(...)`-with-fallback-to-0.0 coercion.
-/

namespace Audit

/-- Python `str.strip()`: remove leading and trailing whitespace.
Written over the underlying character list so that it evaluates by
kernel reduction. -/
def strip (s : String) : String :=
  ⟨((s.data.dropWhile Char.isWhitespace).reverse.dropWhile
      Char.isWhitespace).reverse⟩

/-- Python `str.upper()` on the grade strings appearing here (ASCII).
Written over the underlying character list so that it evaluates by
kernel reduction. -/
def upper (s : String) : String :=
  ⟨s.data.map Char.toUpper⟩

/-- One transcript CSV row: `Course_Code`, `Credits` (after the numeric
coercion performed on read, malformed values having become 0.0), `Grade`. -/
structure Row where
  course_code : String
  credits : ℚ
  grade : String
deriving DecidableEq, Repr

/-- The fixed `GRADE_POINTS` table shared by audit_l2.py and audit_l3.py:
exact-key lookup, `none` for any other string. -/
def GRADE_POINTS : String → Option ℚ
  | "A" => some 4
  | "A-" => some (37/10)
  | "B+" => some (33/10)
  | "B" => some 3
  | "B-" => some (27/10)
  | "C+" => some (23/10)
  | "C" => some 2
  | "C-" => some (17/10)
  | "D+" => some (13/10)
  | "D" => some 1
  | "F" => some 0
  | _ => none

/-- audit_l2.py `get_grade_points`: `GRADE_POINTS.get(grade.upper(), None)` —
the lookup upper-cases its argument first. -/
def get_grade_points (grade : String) : Option ℚ :=
  GRADE_POINTS (upper grade)

/-- audit_l3.py `is_passing` (identical to audit_l1.py `is_passing_grade`):
`grade.upper() not in ['F', 'W', 'I', 'X']`. -/
def is_passing (grade : String) : Bool :=
  !(["F", "W", "I", "X"].contains (upper grade))

/-- One `course_history` dictionary value: `{'grade': ..., 'credits': ...,
'points': ...}`. -/
structure Entry where
  grade : String
  credits : ℚ
  points : ℚ
deriving DecidableEq, Repr

/-- Python-dict update `h[c] = e` on an association list: overwrite in
place when the key is present (a dict holds each key once), otherwise
append; insertion order is preserved. -/
def histUpdate : List (String × Entry) → String → Entry → List (String × Entry)
  | [], c, e => [(c, e)]
  | p :: t, c, e => if p.1 = c then (c, e) :: t else p :: histUpdate t c e

/-- Python-dict lookup `h.get(c)` on the association list. -/
def histGet (h : List (String × Entry)) (c : String) : Option Entry :=
  (h.find? (fun p => p.1 = c)).map (fun p => p.2)

/-- The mutable state of the row loop in audit_l3.py `audit_student`:
`passed_courses` (a Python set, modelled as an insertion-ordered
duplicate-free list) and `course_history`. -/
structure TState where
  passed : List String
  history : List (String × Entry)
deriving DecidableEq, Repr

/-- One iteration of the row loop in audit_l3.py `audit_student`:
strip the code and grade, add to `passed_courses` when passing, and
overwrite `course_history[course]` when `GRADE_POINTS.get(grade)` is not
`None` (note: no `.upper()` on this lookup). -/
def processRow (s : TState) (row : Row) : TState :=
  let course := strip row.course_code
  let grade := strip row.grade
  let s1 : TState :=
    if is_passing grade then
      { s with passed := if course ∈ s.passed then s.passed else s.passed ++ [course] }
    else s
  match GRADE_POINTS grade with
  | some pts =>
      { s1 with history := histUpdate s1.history course ⟨grade, row.credits, pts⟩ }
  | none => s1

/-- The whole row loop of audit_l3.py `audit_student` starting from empty
`passed_courses` and `course_history`. -/
def buildRecord (rows : List Row) : TState :=
  rows.foldl processRow ⟨[], []⟩

/-- audit_l3.py `audit_student`, credits tally: for each passed course, add
`course_history.get(course)['credits']` when the lookup succeeds. -/
def total_earned (s : TState) : ℚ :=
  s.passed.foldl
    (fun acc c =>
      match histGet s.history c with
      | some e => acc + e.credits
      | none => acc)
    0

/-- The per-course credit contribution of the tally in `total_earned`:
the credit weight recorded in the history for the code, 0 when the code
has no entry there. -/
def creditOf (h : List (String × Entry)) (c : String) : ℚ :=
  match histGet h c with
  | some e => e.credits
  | none => 0

/-- audit_l3.py `audit_student`, CGPA accumulation loop over
`course_history.values()`: sum `points * credits` and `credits` over the
entries with `credits > 0`. -/
def gpaFold (h : List (String × Entry)) : ℚ × ℚ :=
  h.foldl
    (fun acc p =>
      if p.2.credits > 0 then
        (acc.1 + p.2.points * p.2.credits, acc.2 + p.2.credits)
      else acc)
    (0, 0)

/-- audit_l3.py `audit_student`: `cgpa = gpa_points / gpa_credits if
gpa_credits > 0 else 0.0`. -/
def cgpa (h : List (String × Entry)) : ℚ :=
  if (gpaFold h).2 > 0 then (gpaFold h).1 / (gpaFold h).2 else 0

/-- The five per-category `missing` lists built by audit_l3.py
`audit_student`. -/
structure Missing where
  ged : List String
  math : List String
  core : List String
  science : List String
  business : List String
deriving DecidableEq, Repr

/-- The resolved `requirements` dictionary of audit_l3.py
`parse_program_knowledge`. -/
structure Requirements where
  total_credits_required : ℕ
  min_cgpa : ℚ
  mandatory_ged : List String
  core_math : List String
  major_core : List String
  core_business : List String
  core_science : List String
deriving DecidableEq, Repr

/-- The initial `requirements` dictionary: zero credits, CGPA 2.0,
all five category lists empty. -/
def initRequirements : Requirements :=
  ⟨0, 2, [], [], [], [], []⟩

/-- audit_l3.py `audit_student`, requirement check: each category's missing
list keeps, in order, the required codes not in `passed_courses`. -/
def audit_missing (reqs : Requirements) (passed : List String) : Missing where
  ged := reqs.mandatory_ged.filter (fun req => !(passed.contains req))
  math := reqs.core_math.filter (fun req => !(passed.contains req))
  core := reqs.major_core.filter (fun req => !(passed.contains req))
  science := reqs.core_science.filter (fun req => !(passed.contains req))
  business := reqs.core_business.filter (fun req => !(passed.contains req))

/-- The dictionary returned by audit_l3.py `audit_student`. -/
structure AuditResult where
  total_earned : ℚ
  cgpa : ℚ
  missing : Missing
  passed_courses : List String
deriving DecidableEq, Repr

/-- audit_l3.py `audit_student` end to end on an already-read row list. -/
def audit_student (rows : List Row) (reqs : Requirements) : AuditResult :=
  let s := buildRecord rows
  { total_earned := total_earned s
    cgpa := cgpa s.history
    missing := audit_missing reqs s.passed
    passed_courses := s.passed }

/-- audit_l3.py `print_report`, verdict: `cgpa_ok and credits_ok and not
has_missing`, where `has_missing` is true when any category's missing list
is non-empty. -/
def is_eligible (audit : AuditResult) (reqs : Requirements) : Bool :=
  let cgpa_ok := decide (audit.cgpa ≥ reqs.min_cgpa)
  let credits_ok := decide (audit.total_earned ≥ (reqs.total_credits_required : ℚ))
  let has_missing :=
    [audit.missing.ged, audit.missing.math, audit.missing.core,
     audit.missing.science, audit.missing.business].any
      (fun m => decide (m.length > 0))
  cgpa_ok && credits_ok && !has_missing

/-- Classification of one stripped line of the requirements markdown, as
tested by audit_l3.py `parse_program_knowledge`.  The raw regex/startswith
layer is abstracted into one constructor per pattern; on real lines the
patterns are mutually exclusive (every label line has `**` right after the
dash, which can never begin a three-uppercase-letter course code, and a
program header starts with `##`).  `programHeader` carries the text
captured by `^## \[Program: (.*)\]`; `totalCreditsLine` carries the first
integer on a `- **Total Credits Required**:` line; `minCgpaLine` carries
the numeric value written on a `- **Minimum CGPA**:` line (which the
parser recognizes but never reads); `bullet` carries the course code
captured by `^\s*-\s*([A-Z]\x7b3\x7d\d\x7b3\x7d[L]?)`. -/
inductive MdLine where
  | programHeader (name : String)
  | totalCreditsLine (n : ℕ)
  | minCgpaLine (value : ℚ)
  | gedLabel
  | mathLabel
  | coreLabel
  | businessLabel
  | scienceLabel
  | bullet (code : String)
  | other
deriving DecidableEq, Repr

/-- The `current_section` values of audit_l3.py `parse_program_knowledge`
other than `None`. -/
inductive ReqSection where
  | programHeaderS
  | ged
  | math
  | core
  | business
  | science
deriving DecidableEq, Repr

/-- The loop state of audit_l3.py `parse_program_knowledge`:
the requirements dictionary, `current_section` and
`target_program_found`. -/
structure PState where
  reqs : Requirements
  current_section : Option ReqSection
  target_found : Bool
deriving DecidableEq, Repr

/-- Whether a classified line is a `## [Program: ...]` header whose
embedded name, stripped, equals the target program name — the test that
opens the target program's section in `parse_program_knowledge`. -/
def isTargetHeader (target : String) : MdLine → Bool
  | .programHeader n => strip n = target
  | _ => false

/-- One iteration of the line loop of audit_l3.py
`parse_program_knowledge`: a program header toggles
`target_program_found` on `group(1).strip() == program_name` and
`continue`s; outside the target section every other line is skipped;
inside it, the credits label overwrites `total_credits_required`, the
Minimum CGPA label is recognized but `pass`ed, each category label sets
`current_section`, and a bullet appends its code to the list selected by
`current_section` (no list when the section is the header or `None`). -/
def parseLine (target : String) (s : PState) (l : MdLine) : PState :=
  match l with
  | .programHeader name =>
      if strip name = target then
        { s with target_found := true, current_section := some .programHeaderS }
      else
        { s with target_found := false, current_section := none }
  | l' =>
      if !s.target_found then s
      else
        match l' with
        | .programHeader _ => s
        | .totalCreditsLine n =>
            { s with reqs := { s.reqs with total_credits_required := n } }
        | .minCgpaLine _ => s
        | .gedLabel => { s with current_section := some .ged }
        | .mathLabel => { s with current_section := some .math }
        | .coreLabel => { s with current_section := some .core }
        | .businessLabel => { s with current_section := some .business }
        | .scienceLabel => { s with current_section := some .science }
        | .bullet code =>
            match s.current_section with
            | some .ged =>
                { s with reqs := { s.reqs with
                    mandatory_ged := s.reqs.mandatory_ged ++ [code] } }
            | some .math =>
                { s with reqs := { s.reqs with
                    core_math := s.reqs.core_math ++ [code] } }
            | some .core =>
                { s with reqs := { s.reqs with
                    major_core := s.reqs.major_core ++ [code] } }
            | some .business =>
                { s with reqs := { s.reqs with
                    core_business := s.reqs.core_business ++ [code] } }
            | some .science =>
                { s with reqs := { s.reqs with
                    core_science := s.reqs.core_science ++ [code] } }
            | _ => s
        | .other => s

/-- The line loop of audit_l3.py `parse_program_knowledge` from the
initial state. -/
def parseFold (target : String) (s : PState) (lines : List MdLine) : PState :=
  lines.foldl (parseLine target) s

/-- audit_l3.py `parse_program_knowledge` on an already-read and classified
line list: the returned requirements dictionary. -/
def parse_program_knowledge (lines : List MdLine) (target : String) :
    Requirements :=
  (parseFold target ⟨initRequirements, none, false⟩ lines).reqs

/-- One iteration of the row loop of audit_l2.py `calculate_cgpa`: strip
code and grade, `continue` when the code is in the waiver list, and
overwrite `course_history[course_code]` when `get_grade_points(grade)` is
not `None` (this one upper-cases the grade). -/
def l2_process (waivers : List String) (h : List (String × Entry)) (row : Row) :
    List (String × Entry) :=
  let course_code := strip row.course_code
  let grade := strip row.grade
  if course_code ∈ waivers then h
  else
    match get_grade_points grade with
    | some pts => histUpdate h course_code ⟨grade, row.credits, pts⟩
    | none => h

/-- The `course_history` built by audit_l2.py `calculate_cgpa`. -/
def l2_history (rows : List Row) (waivers : List String) :
    List (String × Entry) :=
  rows.foldl (l2_process waivers) []

/-- The CGPA computed (and printed) by audit_l2.py `calculate_cgpa`: the
same `credits > 0` accumulation and guarded division as audit_l3. -/
def l2_cgpa (rows : List Row) (waivers : List String) : ℚ :=
  cgpa (l2_history rows waivers)

/- Helper lemmas about the dictionary model. -/

theorem histGet_nil (c : String) : histGet [] c = none := rfl

theorem histGet_cons (p : String × Entry) (t : List (String × Entry)) (c : String) :
    histGet (p :: t) c = if p.1 = c then some p.2 else histGet t c := by
  by_cases hp : p.1 = c <;> simp [histGet, List.find?_cons, hp]

theorem histGet_histUpdate_self (h : List (String × Entry)) (c : String) (e : Entry) :
    histGet (histUpdate h c e) c = some e := by
  induction h with
  | nil => simp [histUpdate, histGet_cons, histGet_nil]
  | cons p t ih =>
      by_cases hp : p.1 = c
      · simp [histUpdate, hp, histGet_cons]
      · simp [histUpdate, hp, histGet_cons, ih]

theorem histGet_histUpdate_ne (h : List (String × Entry)) (c c' : String) (e : Entry)
    (hne : c' ≠ c) : histGet (histUpdate h c e) c' = histGet h c' := by
  induction h with
  | nil =>
      simp [histUpdate, histGet_cons, histGet_nil, Ne.symm hne]
  | cons p t ih =>
      by_cases hp : p.1 = c
      · simp [histUpdate, hp, histGet_cons, Ne.symm hne]
      · simp [histUpdate, hp, histGet_cons, ih]

/- Helper lemmas about one step of the transcript row loop. -/

theorem processRow_passed (s : TState) (r : Row) :
    (processRow s r).passed =
      if is_passing (strip r.grade) then
        (if strip r.course_code ∈ s.passed then s.passed
         else s.passed ++ [strip r.course_code])
      else s.passed := by
  simp only [processRow]
  cases GRADE_POINTS (strip r.grade) <;> by_cases hp : is_passing (strip r.grade) <;>
    simp [hp]

theorem processRow_history (s : TState) (r : Row) :
    (processRow s r).history =
      match GRADE_POINTS (strip r.grade) with
      | some pts =>
          histUpdate s.history (strip r.course_code) ⟨strip r.grade, r.credits, pts⟩
      | none => s.history := by
  simp only [processRow]
  cases GRADE_POINTS (strip r.grade) <;> by_cases hp : is_passing (strip r.grade) <;>
    simp [hp]

/- The passed-course set: membership and freedom from duplicates. -/

theorem passed_mem_foldl (rows : List Row) (s : TState) (c : String) :
    c ∈ (rows.foldl processRow s).passed ↔
      c ∈ s.passed ∨
        ∃ r ∈ rows, strip r.course_code = c ∧ is_passing (strip r.grade) = true := by
  induction rows generalizing s with
  | nil => simp
  | cons r t ih =>
      rw [List.foldl_cons, ih]
      have hstep : c ∈ (processRow s r).passed ↔
          c ∈ s.passed ∨ (strip r.course_code = c ∧ is_passing (strip r.grade) = true) := by
        rw [processRow_passed]
        by_cases hp : is_passing (strip r.grade) = true
        · rw [if_pos hp]
          by_cases hm : strip r.course_code ∈ s.passed
          · rw [if_pos hm]
            constructor
            · exact fun hc => Or.inl hc
            · rintro (hc | ⟨hcc, _⟩)
              · exact hc
              · rwa [← hcc]
          · rw [if_neg hm, List.mem_append, List.mem_singleton]
            constructor
            · rintro (hc | hc)
              · exact Or.inl hc
              · exact Or.inr ⟨hc.symm, hp⟩
            · rintro (hc | ⟨hcc, _⟩)
              · exact Or.inl hc
              · exact Or.inr hcc.symm
        · rw [if_neg hp]
          constructor
          · exact Or.inl
          · rintro (hc | ⟨_, hpp⟩)
            · exact hc
            · exact absurd hpp hp
      rw [hstep]
      simp only [List.mem_cons]
      constructor
      · rintro (⟨hc | ⟨hcc, hpp⟩⟩ | ⟨q, hq, hqq⟩)
        · exact Or.inl hc
        · exact Or.inr ⟨r, Or.inl rfl, hcc, hpp⟩
        · exact Or.inr ⟨q, Or.inr hq, hqq⟩
      · rintro (hc | ⟨q, hq | hq, hqq⟩)
        · exact Or.inl (Or.inl hc)
        · exact Or.inl (Or.inr (hq ▸ hqq))
        · exact Or.inr ⟨q, hq, hqq⟩

theorem passed_nodup_foldl (rows : List Row) (s : TState) (hs : s.passed.Nodup) :
    (rows.foldl processRow s).passed.Nodup := by
  induction rows generalizing s with
  | nil => exact hs
  | cons r t ih =>
      rw [List.foldl_cons]
      refine ih (processRow s r) ?_
      rw [processRow_passed]
      by_cases hp : is_passing (strip r.grade)
      · by_cases hm : strip r.course_code ∈ s.passed
        · simpa [hp, hm] using hs
        · simp only [hp, if_true, hm, if_false]
          refine List.Nodup.append hs (List.nodup_singleton _) ?_
          intro x hx hx'
          rw [List.mem_singleton] at hx'
          exact hm (hx' ▸ hx)
      · simpa [hp] using hs

/- The credits tally as a sum. -/

theorem foldl_credit_sum (h : List (String × Entry)) (l : List String) (a : ℚ) :
    l.foldl
        (fun acc c =>
          match histGet h c with
          | some e => acc + e.credits
          | none => acc)
        a
      = a + (l.map (creditOf h)).sum := by
  induction l generalizing a with
  | nil => simp
  | cons c t ih =>
      rw [List.foldl_cons, ih, List.map_cons, List.sum_cons]
      unfold creditOf
      cases histGet h c with
      | none => simp
      | some e => simp; ring

theorem total_earned_eq_sum (s : TState) :
    total_earned s = (s.passed.map (creditOf s.history)).sum := by
  unfold total_earned
  rw [foldl_credit_sum]
  simp

/- The CGPA accumulator as a pair of sums over the positive-credit
entries. -/

theorem gpaFold_eq_sums (h : List (String × Entry)) :
    gpaFold h =
      (((h.filter (fun p => decide (0 < p.2.credits))).map
          (fun p => p.2.points * p.2.credits)).sum,
       ((h.filter (fun p => decide (0 < p.2.credits))).map
          (fun p => p.2.credits)).sum) := by
  have key : ∀ (l : List (String × Entry)) (a : ℚ × ℚ),
      l.foldl
          (fun acc p =>
            if p.2.credits > 0 then
              (acc.1 + p.2.points * p.2.credits, acc.2 + p.2.credits)
            else acc)
          a
        = (a.1 + ((l.filter (fun p => decide (0 < p.2.credits))).map
              (fun p => p.2.points * p.2.credits)).sum,
           a.2 + ((l.filter (fun p => decide (0 < p.2.credits))).map
              (fun p => p.2.credits)).sum) := by
    intro l
    induction l with
    | nil => intro a; simp
    | cons p t ih =>
        intro a
        by_cases hp : 0 < p.2.credits
        · rw [List.foldl_cons, if_pos hp, ih]
          simp [hp, add_assoc]
        · rw [List.foldl_cons, if_neg hp, ih]
          simp [hp]
  rw [gpaFold, key]
  simp

theorem gpa_credits_nonneg (h : List (String × Entry)) :
    0 ≤ (gpaFold h).2 := by
  rw [gpaFold_eq_sums]
  refine List.sum_nonneg ?_
  intro x hx
  rw [List.mem_map] at hx
  obtain ⟨p, hp, hpx⟩ := hx
  rw [List.mem_filter] at hp
  have := of_decide_eq_true hp.2
  rw [← hpx]
  exact le_of_lt this

theorem cgpa_eq_quotient (h : List (String × Entry)) :
    cgpa h =
      (if ((h.filter (fun p => decide (0 < p.2.credits))).map
            (fun p => p.2.credits)).sum = 0 then 0
       else (((h.filter (fun p => decide (0 < p.2.credits))).map
            (fun p => p.2.points * p.2.credits)).sum /
          ((h.filter (fun p => decide (0 < p.2.credits))).map
            (fun p => p.2.credits)).sum)) := by
  have hnn := gpa_credits_nonneg h
  unfold cgpa
  rw [gpaFold_eq_sums] at hnn ⊢
  simp only at hnn ⊢
  by_cases hz : ((h.filter (fun p => decide (0 < p.2.credits))).map
      (fun p => p.2.credits)).sum = 0
  · rw [if_pos hz, if_neg]
    rw [hz]
    exact lt_irrefl 0
  · rw [if_neg hz, if_pos (lt_of_le_of_ne hnn (Ne.symm hz))]

theorem cgpa_zero_credit_skip (h1 h2 : List (String × Entry)) (c : String)
    (e : Entry) (hce : e.credits = 0) :
    cgpa (h1 ++ (c, e) :: h2) = cgpa (h1 ++ h2) := by
  have : gpaFold (h1 ++ (c, e) :: h2) = gpaFold (h1 ++ h2) := by
    unfold gpaFold
    rw [List.foldl_append, List.foldl_append, List.foldl_cons, hce]
    simp
  unfold cgpa
  rw [this]

/- Latest-attempt preservation: rows that are not a GPA-eligible attempt
of a given code never change that code's history entry. -/

theorem histGet_foldl_untouched (rows : List Row) (s : TState) (c : String)
    (hrows : ∀ r ∈ rows, strip r.course_code = c →
      GRADE_POINTS (strip r.grade) = none) :
    histGet (rows.foldl processRow s).history c = histGet s.history c := by
  induction rows generalizing s with
  | nil => rfl
  | cons r t ih =>
      rw [List.foldl_cons]
      rw [ih (processRow s r) (fun q hq => hrows q (List.mem_cons_of_mem r hq))]
      rw [processRow_history]
      cases hg : GRADE_POINTS (strip r.grade) with
      | none => rfl
      | some pts =>
          have hcc : strip r.course_code ≠ c := by
            intro hrc
            exact absurd hg (by rw [hrows r (List.mem_cons_self r t) hrc]; simp)
          exact histGet_histUpdate_ne s.history (strip r.course_code) c _ (Ne.symm hcc)

/- The resolver never reads the value written on a Minimum CGPA line. -/

theorem parseLine_min_cgpa (target : String) (s : PState) (l : MdLine) :
    (parseLine target s l).reqs.min_cgpa = s.reqs.min_cgpa := by
  cases l <;> simp only [parseLine] <;> (repeat' split) <;> rfl

theorem parseFold_min_cgpa (target : String) (lines : List MdLine) (s : PState) :
    (parseFold target s lines).reqs.min_cgpa = s.reqs.min_cgpa := by
  induction lines generalizing s with
  | nil => rfl
  | cons l t ih =>
      unfold parseFold at ih ⊢
      rw [List.foldl_cons, ih, parseLine_min_cgpa]

/- Outside the target program's section the resolver is inert: any state
with `target_program_found = False` and no current category is a fixed
point of every line that is not a header of the target program. -/

theorem parseFold_append (target : String) (s : PState) (a b : List MdLine) :
    parseFold target s (a ++ b) = parseFold target (parseFold target s a) b := by
  unfold parseFold
  rw [List.foldl_append]

theorem parseFold_cons (target : String) (s : PState) (l : MdLine)
    (t : List MdLine) :
    parseFold target s (l :: t) = parseFold target (parseLine target s l) t := rfl

theorem parseFold_fixed (target : String) (lines : List MdLine) (R : Requirements)
    (hl : ∀ l ∈ lines, isTargetHeader target l = false) :
    parseFold target ⟨R, none, false⟩ lines = ⟨R, none, false⟩ := by
  induction lines with
  | nil => rfl
  | cons l t ih =>
      rw [parseFold_cons]
      have hstep : parseLine target ⟨R, none, false⟩ l = ⟨R, none, false⟩ := by
        have hn := hl l (List.mem_cons_self l t)
        cases l
        case programHeader n =>
            have : ¬ (strip n = target) := by
              intro hc
              rw [isTargetHeader, decide_eq_false_iff_not] at hn
              exact hn hc
            simp [parseLine, this]
        all_goals simp [parseLine]
      rw [hstep]
      exact ih (fun q hq => hl q (List.mem_cons_of_mem _ hq))

/- The audit_l2 row loop: waived rows are exactly skipped, everything
else is processed as with an empty waiver list. -/

theorem l2_foldl_filter (waivers : List String) (rows : List Row)
    (h : List (String × Entry)) :
    rows.foldl (l2_process waivers) h =
      (rows.filter (fun r => decide (strip r.course_code ∉ waivers))).foldl
        (l2_process []) h := by
  induction rows generalizing h with
  | nil => rfl
  | cons r t ih =>
      by_cases hw : strip r.course_code ∈ waivers
      · have hskip : l2_process waivers h r = h := by
          simp [l2_process, hw]
        rw [List.foldl_cons, hskip, List.filter_cons_of_neg (by simp [hw]), ih]
      · rw [List.foldl_cons, List.filter_cons_of_pos (by simp [hw]), List.foldl_cons,
          ih]
        have hsame : l2_process waivers h r = l2_process [] h r := by
          simp [l2_process, hw]
        rw [hsame]

theorem l2_foldl_waived_none (waivers : List String) (rows : List Row)
    (h : List (String × Entry)) (c : String) (hc : c ∈ waivers)
    (hh : histGet h c = none) :
    histGet (rows.foldl (l2_process waivers) h) c = none := by
  induction rows generalizing h with
  | nil => exact hh
  | cons r t ih =>
      rw [List.foldl_cons]
      refine ih _ ?_
      by_cases hw : strip r.course_code ∈ waivers
      · simpa [l2_process, hw] using hh
      · have hne : c ≠ strip r.course_code := fun hcc => hw (hcc ▸ hc)
        simp only [l2_process, if_neg hw]
        cases get_grade_points (strip r.grade) with
        | none => exact hh
        | some pts =>
            rw [histGet_histUpdate_ne _ _ _ _ hne]
            exact hh

/- The verdict of print_report, unfolded. -/

theorem is_eligible_iff (a : AuditResult) (reqs : Requirements) :
    is_eligible a reqs = true ↔
      a.cgpa ≥ reqs.min_cgpa ∧
      a.total_earned ≥ (reqs.total_credits_required : ℚ) ∧
      a.missing.ged = [] ∧ a.missing.math = [] ∧ a.missing.core = [] ∧
      a.missing.science = [] ∧ a.missing.business = [] := by
  unfold is_eligible
  simp only [List.any_cons, List.any_nil, Bool.or_false, Bool.and_eq_true,
    decide_eq_true_eq, Bool.not_eq_true', Bool.or_eq_false_iff,
    decide_eq_false_iff_not, not_lt, Nat.le_zero, List.length_eq_zero,
    ge_iff_le, and_assoc]

/-- C1: the audit verdict is eligible exactly when the CGPA meets
`min_cgpa`, the earned credits meet `total_credits_required`, and all five
categories' missing lists are empty; moreover, with the CGPA and category
conditions already satisfied, varying the earned-credit total flips the
verdict from false to true exactly at the threshold (`>=`, not `>`). -/
theorem eligible_iff_thresholds (a : AuditResult) (reqs : Requirements) :
    (is_eligible a reqs = true ↔
      a.cgpa ≥ reqs.min_cgpa ∧
      a.total_earned ≥ (reqs.total_credits_required : ℚ) ∧
      a.missing.ged = [] ∧ a.missing.math = [] ∧ a.missing.core = [] ∧
      a.missing.science = [] ∧ a.missing.business = []) ∧
    (a.cgpa ≥ reqs.min_cgpa →
      a.missing.ged = [] → a.missing.math = [] → a.missing.core = [] →
      a.missing.science = [] → a.missing.business = [] →
      ∀ t : ℚ,
        (is_eligible { a with total_earned := t } reqs = true ↔
          t ≥ (reqs.total_credits_required : ℚ))) := by
  refine ⟨is_eligible_iff a reqs, ?_⟩
  intro hc hg hm hco hs hb t
  rw [is_eligible_iff]
  simp [hc, hg, hm, hco, hs, hb]

/-- Witness for `eligible_iff_thresholds`: a record with CGPA 3 and no
missing courses against a 5-credit requirement is eligible exactly when
its earned credits reach 5. -/
theorem eligible_iff_thresholds_witness :
    is_eligible
        { total_earned := (5 : ℚ), cgpa := 3, missing := ⟨[], [], [], [], []⟩,
          passed_courses := [] }
        { initRequirements with total_credits_required := 5 } = true ↔
      (5 : ℚ) ≥ ((5 : ℕ) : ℚ) :=
  (eligible_iff_thresholds
      { total_earned := (5 : ℚ), cgpa := 3, missing := ⟨[], [], [], [], []⟩,
        passed_courses := [] }
      { initRequirements with total_credits_required := 5 }).2
    (by norm_num [initRequirements]) rfl rfl rfl rfl rfl 5

/-- C2 (amended): for every requirements document and target program, the
resolved `min_cgpa` is always the default 2.0 — the parser recognizes a
`- **Minimum CGPA**:` label line but never reads the value written on it. -/
theorem min_cgpa_always_default (lines : List MdLine) (target : String) :
    (parse_program_knowledge lines target).min_cgpa = 2 := by
  unfold parse_program_knowledge
  rw [parseFold_min_cgpa]
  rfl

/-- C2 counterexample: a document whose target section states
`- **Minimum CGPA**: 3` still resolves with `min_cgpa = 2.0`, refuting the
claim that the resolved value equals the one on the label line. -/
theorem min_cgpa_ignores_document :
    (parse_program_knowledge
        [MdLine.programHeader "Computer Science & Engineering",
         MdLine.minCgpaLine 3]
        "Computer Science & Engineering").min_cgpa ≠ 3 := by
  with_unfolding_all decide

/-- C3 (amended): `get_grade_points` (audit_l2) maps a grade string to the
fixed table value of its upper-cased form, so that lookup is
case-insensitive; the audit engine (audit_l3) instead looks the stripped
grade up in `GRADE_POINTS` without upper-casing, and any attempt whose
stripped grade has no exact-case table entry — `W`, `I`, `X`, lower-case
spellings, and unrecognized strings — is excluded from the latest-attempt
history entirely (not recorded as zero). -/
theorem grade_points_case_sensitivity (rows : List Row) (r : Row)
    (hr : GRADE_POINTS (strip r.grade) = none) :
    (∀ g, get_grade_points g = GRADE_POINTS (upper g)) ∧
    (buildRecord (rows ++ [r])).history = (buildRecord rows).history := by
  refine ⟨fun g => rfl, ?_⟩
  unfold buildRecord
  rw [List.foldl_append, List.foldl_cons, List.foldl_nil, processRow_history, hr]

/-- Witness for `grade_points_case_sensitivity`: a lower-case "w" row
leaves the latest-attempt history of a one-row transcript unchanged. -/
theorem grade_points_case_sensitivity_witness :
    GRADE_POINTS (strip "w") = none ∧
    (buildRecord ([⟨"CSE115", 3, "A"⟩] ++ [⟨"CSE115", 3, "w"⟩])).history =
      (buildRecord [⟨"CSE115", 3, "A"⟩]).history :=
  ⟨by decide,
   (grade_points_case_sensitivity [⟨"CSE115", 3, "A"⟩] ⟨"CSE115", 3, "w"⟩
      (by decide)).2⟩

/-- C3 counterexample: at the grade string "a", the case-insensitive table
value is 4.0, yet the audit engine's accumulation records no
latest-attempt entry for the row at all — its lookup is case-sensitive,
refuting the claim that the point value is determined case-insensitively
throughout. -/
theorem grade_points_lowercase_divergence :
    get_grade_points "a" = some 4 ∧
    (buildRecord [⟨"CSE115", 3, "a"⟩]).history = [] := by
  exact ⟨by decide, by decide⟩

/-- C4: the earned-credit total is the sum, over the (duplicate-free)
passed-course codes, of the credit weight recorded for the code in the
latest-attempt history, a code without a history entry contributing 0. -/
theorem total_earned_credits_sum (rows : List Row) :
    total_earned (buildRecord rows) =
      ((buildRecord rows).passed.map (creditOf (buildRecord rows).history)).sum ∧
    (buildRecord rows).passed.Nodup ∧
    (∀ c, histGet (buildRecord rows).history c = none →
      creditOf (buildRecord rows).history c = 0) := by
  refine ⟨total_earned_eq_sum _, passed_nodup_foldl rows ⟨[], []⟩ List.nodup_nil, ?_⟩
  intro c hc
  unfold creditOf
  rw [hc]

/-- Witness for `total_earned_credits_sum`: a course only ever passed with
the no-point grade "P" has no history entry and contributes 0. -/
theorem total_earned_credits_sum_witness :
    histGet (buildRecord [(⟨"CSE115", 3, "P"⟩ : Row)]).history "CSE115" = none ∧
    creditOf (buildRecord [(⟨"CSE115", 3, "P"⟩ : Row)]).history "CSE115" = 0 :=
  ⟨by decide,
   (total_earned_credits_sum [⟨"CSE115", 3, "P"⟩]).2.2 "CSE115" (by decide)⟩

/-- C5: the CGPA equals the sum of points×credits over the latest-attempt
entries with positive credit weight divided by the sum of those credit
weights, and is 0.0 when that sum is 0; an entry with credit weight 0
contributes to neither numerator nor denominator wherever it sits in the
history. -/
theorem cgpa_quotient_spec (rows : List Row) :
    cgpa (buildRecord rows).history =
      (if (((buildRecord rows).history.filter
            (fun p => decide (0 < p.2.credits))).map (fun p => p.2.credits)).sum = 0
       then 0
       else
        ((((buildRecord rows).history.filter
            (fun p => decide (0 < p.2.credits))).map
              (fun p => p.2.points * p.2.credits)).sum /
          (((buildRecord rows).history.filter
            (fun p => decide (0 < p.2.credits))).map (fun p => p.2.credits)).sum)) ∧
    ∀ h1 h2 : List (String × Entry), ∀ c : String, ∀ e : Entry,
      e.credits = 0 → cgpa (h1 ++ (c, e) :: h2) = cgpa (h1 ++ h2) :=
  ⟨cgpa_eq_quotient _,
   fun h1 h2 c e hce => cgpa_zero_credit_skip h1 h2 c e hce⟩

/-- Witness for `cgpa_quotient_spec`: a zero-credit A entry in the middle
of a history leaves the CGPA unchanged. -/
theorem cgpa_quotient_spec_witness :
    Entry.credits ⟨"A", 0, 4⟩ = 0 ∧
    cgpa ([("MAT110", ⟨"B", 3, 3⟩)] ++ ("CSE115", ⟨"A", 0, 4⟩) :: []) =
      cgpa ([("MAT110", ⟨"B", 3, 3⟩)] ++ []) :=
  ⟨rfl, (cgpa_quotient_spec []).2 [("MAT110", ⟨"B", 3, 3⟩)] [] "CSE115" ⟨"A", 0, 4⟩ rfl⟩

/-- C6: a course code is in passed_courses iff some row's stripped course
code equals it and its stripped grade is passing — where passing means the
upper-cased grade is not one of F, W, I, X, independently of whether the
grade has a GPA point value; the set never holds a code twice, so a later
failing retake cannot remove a code and a later passing retake cannot add
it twice. -/
theorem passed_courses_iff (rows : List Row) (c : String) :
    (c ∈ (buildRecord rows).passed ↔
      ∃ r ∈ rows, strip r.course_code = c ∧ is_passing (strip r.grade) = true) ∧
    (buildRecord rows).passed.Nodup ∧
    (∀ g, is_passing g = !(["F", "W", "I", "X"].contains (upper g))) := by
  refine ⟨?_, passed_nodup_foldl rows ⟨[], []⟩ List.nodup_nil, fun g => rfl⟩
  rw [buildRecord, passed_mem_foldl]
  simp

/-- C7: last-write-wins — when a row is a GPA-eligible attempt of its
course code and no later row is a GPA-eligible attempt of the same code,
the latest-attempt entry for that code carries exactly that row's stripped
grade, credit weight and table point value, whatever the earlier rows
held. -/
theorem latest_attempt_last_write (l1 l2 : List Row) (r : Row) (p : ℚ)
    (hg : GRADE_POINTS (strip r.grade) = some p)
    (hl2 : ∀ q ∈ l2, strip q.course_code = strip r.course_code →
      GRADE_POINTS (strip q.grade) = none) :
    histGet (buildRecord (l1 ++ r :: l2)).history (strip r.course_code) =
      some ⟨strip r.grade, r.credits, p⟩ := by
  unfold buildRecord
  rw [List.foldl_append, List.foldl_cons,
    histGet_foldl_untouched l2 _ _ hl2, processRow_history, hg]
  exact histGet_histUpdate_self _ _ _

/-- Witness for `latest_attempt_last_write`: attempts C then A then W on
the same code leave the A attempt (4 credits, 4.0 points) in the
history. -/
theorem latest_attempt_last_write_witness :
    histGet
        (buildRecord
          ([⟨"CSE115", 3, "C"⟩] ++ (⟨"CSE115", 4, "A"⟩ : Row) ::
            [⟨"CSE115", 3, "W"⟩])).history
        (strip "CSE115") = some ⟨strip "A", (4 : ℚ), 4⟩ :=
  latest_attempt_last_write [⟨"CSE115", 3, "C"⟩] [⟨"CSE115", 3, "W"⟩]
    ⟨"CSE115", 4, "A"⟩ 4 (by decide) (by decide)

/-- C8: category lists come only from bullets inside the target program's
section — a prefix containing no target header contributes nothing to the
result, and after a header of another program, with no target header
following, the remaining lines contribute nothing. -/
theorem category_section_scoping (pre suf l1 l2 : List MdLine)
    (target nm : String)
    (hpre : ∀ l ∈ pre, isTargetHeader target l = false)
    (hnm : ¬ (strip nm = target))
    (hl2 : ∀ l ∈ l2, isTargetHeader target l = false) :
    parse_program_knowledge (pre ++ suf) target =
      parse_program_knowledge suf target ∧
    parse_program_knowledge (l1 ++ MdLine.programHeader nm :: l2) target =
      parse_program_knowledge l1 target := by
  constructor
  · unfold parse_program_knowledge
    rw [parseFold_append, parseFold_fixed target pre initRequirements hpre]
  · unfold parse_program_knowledge
    rw [parseFold_append, parseFold_cons]
    have hstep :
        parseLine target (parseFold target ⟨initRequirements, none, false⟩ l1)
            (MdLine.programHeader nm) =
          ⟨(parseFold target ⟨initRequirements, none, false⟩ l1).reqs, none,
            false⟩ := by
      simp [parseLine, hnm]
    rw [hstep, parseFold_fixed target l2 _ hl2]

/-- Witness for `category_section_scoping`: a stray bullet before the
target section is ignored, and a bullet after a foreign header is
ignored. -/
theorem category_section_scoping_witness :
    parse_program_knowledge
        ([MdLine.bullet "CSE115"] ++
          [MdLine.programHeader "CSE", MdLine.gedLabel, MdLine.bullet "ENG102"])
        "CSE" =
      parse_program_knowledge
        [MdLine.programHeader "CSE", MdLine.gedLabel, MdLine.bullet "ENG102"]
        "CSE" ∧
    parse_program_knowledge
        ([MdLine.programHeader "CSE", MdLine.gedLabel] ++
          MdLine.programHeader "BBA" :: [MdLine.bullet "MAT110"])
        "CSE" =
      parse_program_knowledge [MdLine.programHeader "CSE", MdLine.gedLabel]
        "CSE" :=
  category_section_scoping [MdLine.bullet "CSE115"]
    [MdLine.programHeader "CSE", MdLine.gedLabel, MdLine.bullet "ENG102"]
    [MdLine.programHeader "CSE", MdLine.gedLabel] [MdLine.bullet "MAT110"]
    "CSE" "BBA" (by decide) (by decide) (by decide)

/-- C9 (amended): when no line is a header of the target program the
resolver silently yields the default requirement set — 0 credits required,
all five categories empty, min_cgpa 2.0; auditing any transcript against
it trivially satisfies the credit and category checks, so the verdict is
eligible exactly when the computed CGPA reaches the default 2.0 (and the
earned-credit total is at least 0) — not unconditionally true. -/
theorem unmatched_program_defaults (lines : List MdLine) (target : String)
    (hl : ∀ l ∈ lines, isTargetHeader target l = false) :
    parse_program_knowledge lines target = initRequirements ∧
    ∀ rows : List Row,
      (is_eligible (audit_student rows (parse_program_knowledge lines target))
          (parse_program_knowledge lines target) = true ↔
        cgpa (buildRecord rows).history ≥ 2 ∧
          total_earned (buildRecord rows) ≥ 0) := by
  have hparse : parse_program_knowledge lines target = initRequirements := by
    unfold parse_program_knowledge
    rw [parseFold_fixed target lines initRequirements hl]
  refine ⟨hparse, ?_⟩
  intro rows
  rw [hparse, is_eligible_iff]
  simp [audit_student, audit_missing, initRequirements]

/-- Witness for `unmatched_program_defaults` on a one-header document that
does not mention the target program and a one-row transcript. -/
theorem unmatched_program_defaults_witness :
    parse_program_knowledge [MdLine.programHeader "Business Administration"]
        "Computer Science & Engineering" = initRequirements ∧
    (is_eligible
        (audit_student [⟨"CSE115", 3, "A"⟩]
          (parse_program_knowledge
            [MdLine.programHeader "Business Administration"]
            "Computer Science & Engineering"))
        (parse_program_knowledge [MdLine.programHeader "Business Administration"]
          "Computer Science & Engineering") = true ↔
      cgpa (buildRecord [⟨"CSE115", 3, "A"⟩]).history ≥ 2 ∧
        total_earned (buildRecord [⟨"CSE115", 3, "A"⟩]) ≥ 0) :=
  ⟨(unmatched_program_defaults [MdLine.programHeader "Business Administration"]
      "Computer Science & Engineering" (by decide)).1,
   (unmatched_program_defaults [MdLine.programHeader "Business Administration"]
      "Computer Science & Engineering" (by decide)).2 [⟨"CSE115", 3, "A"⟩]⟩

/-- C9 counterexample: with an unmatched program name and the non-empty
transcript [(CSE115, 3, D)] — CGPA 1.0, below the default minimum 2.0 —
the verdict is NOT eligible, refuting "any non-empty transcript yields
eligible = true trivially". -/
theorem unmatched_program_not_trivially_eligible :
    is_eligible
        (audit_student [⟨"CSE115", 3, "D"⟩]
          (parse_program_knowledge
            [MdLine.programHeader "Business Administration"]
            "Computer Science & Engineering"))
        (parse_program_knowledge [MdLine.programHeader "Business Administration"]
          "Computer Science & Engineering") = false := by
  with_unfolding_all decide

/-- C10: audit_l2's latest-attempt history and CGPA under a waiver list
equal those computed, with no waivers, on the transcript from which every
row whose stripped course code is waived has been removed; and a waived
code never appears in the history. -/
theorem waiver_filter_equiv (rows : List Row) (waivers : List String) :
    l2_history rows waivers =
      l2_history (rows.filter (fun r => decide (strip r.course_code ∉ waivers)))
        [] ∧
    l2_cgpa rows waivers =
      l2_cgpa (rows.filter (fun r => decide (strip r.course_code ∉ waivers)))
        [] ∧
    ∀ c ∈ waivers, histGet (l2_history rows waivers) c = none := by
  have hh : l2_history rows waivers =
      l2_history (rows.filter (fun r => decide (strip r.course_code ∉ waivers)))
        [] := by
    unfold l2_history
    exact l2_foldl_filter waivers rows []
  refine ⟨hh, ?_, ?_⟩
  · unfold l2_cgpa
    rw [hh]
  · intro c hc
    unfold l2_history
    exact l2_foldl_waived_none waivers rows [] c hc rfl

/-- Witness for `waiver_filter_equiv`: waiving MAT110 keeps it out of the
history of a two-row transcript. -/
theorem waiver_filter_equiv_witness :
    "MAT110" ∈ ["MAT110"] ∧
    histGet (l2_history [⟨"CSE115", 3, "A"⟩, ⟨"MAT110", 3, "B"⟩] ["MAT110"])
        "MAT110" = none :=
  ⟨by decide,
   (waiver_filter_equiv [⟨"CSE115", 3, "A"⟩, ⟨"MAT110", 3, "B"⟩]
      ["MAT110"]).2.2 "MAT110" (by decide)⟩

end Audit
